import Mathlib

/-!
Verification of the room-scoped connection registry and broadcast relay
(`src/webrtc-stack/signaling/main.py`).

The Python module keeps a process-wide `rooms: Dict[str, Set[WebSocket]]`
and a per-connection handler `ws_endpoint` that
  * resolves the room name from the `room` query parameter (default `"default"`),
  * adds the websocket to the room's member set,
  * loops: receives a text message and forwards it to every *other* member of
    the room, swallowing per-peer send exceptions,
  * on loop termination (graceful `WebSocketDisconnect` or any other error)
    removes the websocket from the room's member set in a `finally` block,
    without deleting the room key.

Embedding choices:
  * a `WebSocket` is identified by reference; we model it as a `Nat` (`Conn`);
  * a Python `set` is a duplicate-free list (`MemberSet`), with `set.add`
    appending when absent and `set.remove` erasing;
  * the dict `rooms` is an association list (`Rooms`) with Python dict
    semantics: lookup by key, assignment replacing in place or appending;
  * a peer's `send_text` either succeeds or raises; the environment is a
    function `ok : Conn → Bool` saying which peers' transports accept a send;
    `except Exception: pass` is embedded by the fold continuing regardless.
-/

/-- A connection handle; identity is reference equality, modelled as `Nat`. -/
abbrev Conn := Nat

/-- A Python `set` of connections: a duplicate-free list. -/
abbrev MemberSet := List Conn

/-- The global `rooms` dict: room name to member set, as an association list. -/
abbrev Rooms := List (String × MemberSet)

/-- Python dict lookup: first entry with the given key, if any. -/
def dictLookup : Rooms → String → Option MemberSet
  | [], _ => none
  | (k', v) :: rest, k => if k' = k then some v else dictLookup rest k

/-- Python dict assignment `rooms[k] = v`: replace the value of an existing
key in place, else append a new entry. -/
def dictSet : Rooms → String → MemberSet → Rooms
  | [], k, v => [(k, v)]
  | (k', v') :: rest, k, v =>
      if k' = k then (k', v) :: rest else (k', v') :: dictSet rest k v

/-- Python `set.add`: no-op when already present, else append. -/
def setAdd (s : MemberSet) (c : Conn) : MemberSet :=
  if c ∈ s then s else s ++ [c]

/-- `rooms.get(room, [])` (line 41): the member set of a room, empty when the
room is unknown. -/
def snapshot (rs : Rooms) (room : String) : MemberSet :=
  (dictLookup rs room).getD []

/-- Lines 31–33: `if room not in rooms: rooms[room] = set()` then
`rooms[room].add(ws)`. -/
def join (rs : Rooms) (room : String) (ws : Conn) : Rooms :=
  let rs' :=
    match dictLookup rs room with
    | none => dictSet rs room []
    | some _ => rs
  match dictLookup rs' room with
  | some s => dictSet rs' room (setAdd s ws)
  | none => rs'

/-- Lines 53–54: `if room in rooms and ws in rooms[room]:
rooms[room].remove(ws)`. The room key is never deleted. -/
def leave (rs : Rooms) (room : String) (ws : Conn) : Rooms :=
  match dictLookup rs room with
  | some s => if ws ∈ s then dictSet rs room (s.erase ws) else rs
  | none => rs

/-- Line 27: `room = ws.query_params.get("room", "default")`. -/
def roomOf (queryRoom : Option String) : String :=
  queryRoom.getD "default"

/-- Outcome of one broadcast pass: the peers a send was attempted to, in
order, and the `(peer, message)` deliveries that succeeded. -/
structure BroadcastResult where
  attempted : List Conn
  delivered : List (Conn × String)
deriving Repr, DecidableEq

/-- The body of the `for peer in ...` loop (lines 42–47): skip the sender
itself (`if peer is not ws`), otherwise attempt the send; a raising peer
(`ok peer = false`) is ignored (`except Exception: pass`) and the fold
continues with the next peer. -/
def passStep (ws : Conn) (m : String) (ok : Conn → Bool)
    (acc : BroadcastResult) (peer : Conn) : BroadcastResult :=
  if peer = ws then acc
  else
    { attempted := acc.attempted ++ [peer]
      delivered := acc.delivered ++ (if ok peer then [(peer, m)] else []) }

/-- Lines 41–47: one broadcast pass, iterating `list(rooms.get(room, []))`. -/
def broadcastPass (rs : Rooms) (room : String) (ws : Conn) (m : String)
    (ok : Conn → Bool) : BroadcastResult :=
  (snapshot rs room).foldl (passStep ws m ok) ⟨[], []⟩

/-- The `while True` receive/forward loop (lines 35–47), as seen by one
connection: each received message triggers one broadcast pass; the deliveries
of all passes are returned in order. The registry is not mutated by a pass. -/
def relayLoop (rs : Rooms) (room : String) (ws : Conn) (ok : Conn → Bool) :
    List String → List (Conn × String)
  | [] => []
  | m :: rest =>
      (broadcastPass rs room ws m ok).delivered ++ relayLoop rs room ws ok rest

/-- How the receive loop terminates: `WebSocketDisconnect` (caught, line 48)
or any other read error (propagates past the `finally`). -/
inductive EndEvent
  | disconnect
  | readError
deriving Repr, DecidableEq

/-- A registry operation performed by the handler, for counting. -/
inductive RegOp
  | regJoin (room : String) (c : Conn)
  | regLeave (room : String) (c : Conn)
deriving Repr, DecidableEq

/-- Whether a registry operation is a leave. -/
def RegOp.isLeave : RegOp → Bool
  | .regLeave _ _ => true
  | _ => false

/-- The observable outcome of one run of `ws_endpoint`. -/
structure RunResult where
  /-- the final state of the global `rooms` dict -/
  rooms : Rooms
  /-- all successful `(peer, message)` deliveries, in order -/
  delivered : List (Conn × String)
  /-- the registry operations the handler performed, in order -/
  regOps : List RegOp
  /-- whether an exception escapes the handler (only a non-disconnect read
  error does: `except WebSocketDisconnect` catches the graceful case) -/
  raised : Bool
deriving Repr, DecidableEq

/-- One full run of `ws_endpoint` (lines 24–55): resolve the room, join,
relay the received messages `msgs` until the read that ends the loop with
`endEvt`, then — in the `finally` block, on every path — leave. -/
def wsEndpoint (rs0 : Rooms) (queryRoom : Option String) (ws : Conn)
    (msgs : List String) (endEvt : EndEvent) (ok : Conn → Bool) : RunResult :=
  let room := roomOf queryRoom
  let rs1 := join rs0 room ws
  { rooms := leave rs1 room ws
    delivered := relayLoop rs1 room ws ok msgs
    regOps := [RegOp.regJoin room ws, RegOp.regLeave room ws]
    raised := match endEvt with
      | .disconnect => false
      | .readError => true }

/-- Well-formedness of the registry, true of every reachable state: dict keys
are unique and each member set is duplicate-free (it models a Python `set`). -/
def WF (rs : Rooms) : Prop :=
  (rs.map Prod.fst).Nodup ∧ ∀ p ∈ rs, p.2.Nodup

/-! ### Dictionary and set lemmas -/

theorem dictLookup_dictSet_self (rs : Rooms) (k : String) (v : MemberSet) :
    dictLookup (dictSet rs k v) k = some v := by
  induction rs with
  | nil => simp [dictSet, dictLookup]
  | cons p rest ih =>
      obtain ⟨k', v'⟩ := p
      by_cases hk : k' = k
      · simp [dictSet, dictLookup, hk]
      · simp [dictSet, dictLookup, hk, ih]

theorem dictLookup_dictSet_ne (rs : Rooms) (k : String) (v : MemberSet)
    (r : String) (h : r ≠ k) :
    dictLookup (dictSet rs k v) r = dictLookup rs r := by
  induction rs with
  | nil => simp [dictSet, dictLookup, Ne.symm h]
  | cons p rest ih =>
      obtain ⟨k', v'⟩ := p
      by_cases hk : k' = k
      · subst hk
        simp [dictSet, dictLookup, Ne.symm h]
      · simp [dictSet, dictLookup, hk, ih]

theorem mem_of_dictLookup {rs : Rooms} {k : String} {v : MemberSet}
    (h : dictLookup rs k = some v) : (k, v) ∈ rs := by
  induction rs with
  | nil => simp [dictLookup] at h
  | cons p rest ih =>
      obtain ⟨k', v'⟩ := p
      by_cases hk : k' = k
      · subst hk
        simp [dictLookup] at h
        subst h
        exact List.mem_cons_self _ _
      · simp [dictLookup, hk] at h
        exact List.mem_cons_of_mem _ (ih h)

theorem dictLookup_eq_none_iff (rs : Rooms) (k : String) :
    dictLookup rs k = none ↔ k ∉ rs.map Prod.fst := by
  induction rs with
  | nil => simp [dictLookup]
  | cons p rest ih =>
      obtain ⟨k', v'⟩ := p
      by_cases hk : k' = k
      · simp [dictLookup, hk]
      · simp [dictLookup, hk, ih, Ne.symm hk]

theorem dictSet_map_fst_of_isSome (rs : Rooms) (k : String) (v : MemberSet)
    (h : (dictLookup rs k).isSome) :
    (dictSet rs k v).map Prod.fst = rs.map Prod.fst := by
  induction rs with
  | nil => simp [dictLookup] at h
  | cons p rest ih =>
      obtain ⟨k', v'⟩ := p
      by_cases hk : k' = k
      · simp [dictSet, hk]
      · simp only [dictLookup, if_neg hk, Option.isSome] at h
        simp [dictSet, hk, ih h]

theorem dictSet_map_fst_of_none (rs : Rooms) (k : String) (v : MemberSet)
    (h : dictLookup rs k = none) :
    (dictSet rs k v).map Prod.fst = rs.map Prod.fst ++ [k] := by
  induction rs with
  | nil => simp [dictSet]
  | cons p rest ih =>
      obtain ⟨k', v'⟩ := p
      by_cases hk : k' = k
      · simp [dictLookup, hk] at h
      · simp only [dictLookup, if_neg hk] at h
        simp [dictSet, hk, ih h]

theorem dictSet_values_nodup :
    ∀ (rs : Rooms), (∀ p ∈ rs, p.2.Nodup) →
      ∀ (k : String) (v : MemberSet), v.Nodup →
        ∀ p ∈ dictSet rs k v, p.2.Nodup := by
  intro rs
  induction rs with
  | nil =>
      intro _ k v hv p hp
      simp [dictSet] at hp
      subst hp
      exact hv
  | cons q rest ih =>
      obtain ⟨k', v'⟩ := q
      intro hrs k v hv p hp
      by_cases hk : k' = k
      · simp only [dictSet, if_pos hk, List.mem_cons] at hp
        rcases hp with rfl | hp
        · exact hv
        · exact hrs p (List.mem_cons_of_mem _ hp)
      · simp only [dictSet, if_neg hk, List.mem_cons] at hp
        rcases hp with rfl | hp
        · exact hrs _ (List.mem_cons_self _ _)
        · exact ih (fun q hq => hrs q (List.mem_cons_of_mem _ hq)) k v hv p hp

theorem WF_dictSet {rs : Rooms} (h : WF rs) {v : MemberSet} (hv : v.Nodup)
    (k : String) : WF (dictSet rs k v) := by
  obtain ⟨hkeys, hvals⟩ := h
  constructor
  · cases hs : dictLookup rs k with
    | some s =>
        rw [dictSet_map_fst_of_isSome rs k v (by simp [hs])]
        exact hkeys
    | none =>
        rw [dictSet_map_fst_of_none rs k v hs]
        refine List.Nodup.append hkeys (by simp) ?_
        intro a ha hb
        simp at hb
        exact (dictLookup_eq_none_iff rs k).mp hs (hb ▸ ha)
  · exact dictSet_values_nodup rs hvals k v hv

theorem mem_setAdd (s : MemberSet) (ws c : Conn) :
    c ∈ setAdd s ws ↔ c ∈ s ∨ c = ws := by
  unfold setAdd
  by_cases h : ws ∈ s
  · simp only [if_pos h]
    constructor
    · exact Or.inl
    · rintro (hc | rfl)
      · exact hc
      · exact h
  · simp [if_neg h, List.mem_append]

theorem setAdd_nodup {s : MemberSet} (h : s.Nodup) (c : Conn) :
    (setAdd s c).Nodup := by
  unfold setAdd
  by_cases hc : c ∈ s
  · simpa [hc]
  · simp only [if_neg hc]
    refine List.Nodup.append h (by simp) ?_
    intro a ha hb
    simp at hb
    subst hb
    exact hc ha

/-! ### Registry operation lemmas -/

theorem snapshot_join_self (rs : Rooms) (room : String) (ws : Conn) :
    snapshot (join rs room ws) room = setAdd (snapshot rs room) ws := by
  cases h : dictLookup rs room with
  | none => simp [join, h, snapshot, dictLookup_dictSet_self]
  | some s => simp [join, h, snapshot, dictLookup_dictSet_self]

theorem dictLookup_join_ne (rs : Rooms) (room : String) (ws : Conn)
    (r : String) (h : r ≠ room) :
    dictLookup (join rs room ws) r = dictLookup rs r := by
  cases hl : dictLookup rs room with
  | none =>
      simp [join, hl, dictLookup_dictSet_self,
        dictLookup_dictSet_ne _ _ _ _ h]
  | some s => simp [join, hl, dictLookup_dictSet_ne _ _ _ _ h]

theorem snapshot_leave_self (rs : Rooms) (room : String) (ws : Conn) :
    snapshot (leave rs room ws) room = (snapshot rs room).erase ws := by
  cases h : dictLookup rs room with
  | none => simp [leave, h, snapshot]
  | some s =>
      by_cases hw : ws ∈ s
      · simp [leave, h, hw, snapshot, dictLookup_dictSet_self]
      · simp [leave, h, hw, snapshot, List.erase_of_not_mem hw]

theorem dictLookup_leave_ne (rs : Rooms) (room : String) (ws : Conn)
    (r : String) (h : r ≠ room) :
    dictLookup (leave rs room ws) r = dictLookup rs r := by
  cases hl : dictLookup rs room with
  | none => simp [leave, hl]
  | some s =>
      by_cases hw : ws ∈ s
      · simp [leave, hl, hw, dictLookup_dictSet_ne _ _ _ _ h]
      · simp [leave, hl, hw]

theorem WF_join {rs : Rooms} (h : WF rs) (room : String) (ws : Conn) :
    WF (join rs room ws) := by
  cases hl : dictLookup rs room with
  | none =>
      have h1 : WF (dictSet rs room []) := WF_dictSet h List.nodup_nil room
      have heq : join rs room ws
          = dictSet (dictSet rs room []) room (setAdd [] ws) := by
        simp [join, hl, dictLookup_dictSet_self]
      rw [heq]
      exact WF_dictSet h1 (setAdd_nodup List.nodup_nil ws) room
  | some s =>
      have hs : s.Nodup := h.2 (room, s) (mem_of_dictLookup hl)
      have heq : join rs room ws = dictSet rs room (setAdd s ws) := by
        simp [join, hl]
      rw [heq]
      exact WF_dictSet h (setAdd_nodup hs ws) room

theorem WF_leave {rs : Rooms} (h : WF rs) (room : String) (ws : Conn) :
    WF (leave rs room ws) := by
  cases hl : dictLookup rs room with
  | none => simpa [leave, hl] using h
  | some s =>
      by_cases hw : ws ∈ s
      · have hs : s.Nodup := h.2 (room, s) (mem_of_dictLookup hl)
        have heq : leave rs room ws = dictSet rs room (s.erase ws) := by
          simp [leave, hl, hw]
        rw [heq]
        exact WF_dictSet h (hs.erase ws) room
      · simpa [leave, hl, hw] using h

theorem nodup_snapshot {rs : Rooms} (h : WF rs) (room : String) :
    (snapshot rs room).Nodup := by
  unfold snapshot
  cases hl : dictLookup rs room with
  | none => simp
  | some s => simpa using h.2 (room, s) (mem_of_dictLookup hl)

/-! ### Broadcast pass: closed form of the fold -/

theorem foldl_passStep (ws : Conn) (m : String) (ok : Conn → Bool) :
    ∀ (l : List Conn) (acc : BroadcastResult),
      l.foldl (passStep ws m ok) acc =
        ⟨acc.attempted ++ l.filter (fun p => p != ws),
         acc.delivered
           ++ (l.filter (fun p => p != ws && ok p)).map (fun p => (p, m))⟩ := by
  intro l
  induction l with
  | nil => intro acc; simp
  | cons a l ih =>
      intro acc
      by_cases ha : a = ws
      · subst ha
        simp [List.foldl_cons, passStep, ih]
      · simp only [List.foldl_cons, passStep, if_neg ha]
        rw [ih]
        by_cases hok : ok a
        · simp [List.filter_cons, ha, hok]
        · simp [List.filter_cons, ha, hok]

theorem broadcastPass_attempted (rs : Rooms) (room : String) (ws : Conn)
    (m : String) (ok : Conn → Bool) :
    (broadcastPass rs room ws m ok).attempted
      = (snapshot rs room).filter (fun p => p != ws) := by
  unfold broadcastPass
  rw [foldl_passStep]
  simp

theorem broadcastPass_delivered (rs : Rooms) (room : String) (ws : Conn)
    (m : String) (ok : Conn → Bool) :
    (broadcastPass rs room ws m ok).delivered
      = ((snapshot rs room).filter (fun p => p != ws && ok p)).map
          (fun p => (p, m)) := by
  unfold broadcastPass
  rw [foldl_passStep]
  simp

/-! ### Claims -/

/-- C1: for every room `R` and distinct connections `A`, `B` both joined to
`R`, a message `A` sends in one broadcast pass is delivered to `B` exactly
once (given `B`'s transport accepts the send), and `A` never receives — nor
is even attempted with — its own just-sent message. -/
theorem claim1_broadcast_once_never_self (rs : Rooms) (R : String)
    (A B : Conn) (m : String) (ok : Conn → Bool) (hwf : WF rs)
    (hB : B ∈ snapshot rs R) (hne : B ≠ A) (hok : ok B = true) :
    ((broadcastPass rs R A m ok).delivered.map Prod.fst).count B = 1
    ∧ A ∉ (broadcastPass rs R A m ok).delivered.map Prod.fst
    ∧ A ∉ (broadcastPass rs R A m ok).attempted := by
  have hdel : (broadcastPass rs R A m ok).delivered.map Prod.fst
      = (snapshot rs R).filter (fun p => p != A && ok p) := by
    rw [broadcastPass_delivered, List.map_map]
    have hcomp : (Prod.fst ∘ fun p : Conn => (p, m)) = id := rfl
    rw [hcomp, List.map_id]
  refine ⟨?_, ?_, ?_⟩
  · rw [hdel]
    have hnodup : ((snapshot rs R).filter (fun p => p != A && ok p)).Nodup :=
      (nodup_snapshot hwf R).filter _
    have hmem : B ∈ (snapshot rs R).filter (fun p => p != A && ok p) := by
      simp [List.mem_filter, hB, hne, hok]
    exact List.count_eq_one_of_mem hnodup hmem
  · rw [hdel]
    intro hA
    simp [List.mem_filter] at hA
  · rw [broadcastPass_attempted]
    intro hA
    simp [List.mem_filter] at hA

/-- C2: when one peer `q`'s transport rejects the send, the failure is
swallowed: the attempted list is still every non-sender peer of the
snapshot, every other accepting peer still gets the message, the relay loop
goes on to process the remaining messages, and whether the handler raises is
independent of send failures (no error is surfaced to the sender). -/
theorem claim2_send_failure_swallowed (rs : Rooms) (room : String)
    (ws : Conn) (m : String) (ok : Conn → Bool) (q : Conn)
    (hq : ok q = false) :
    (broadcastPass rs room ws m ok).attempted
        = (snapshot rs room).filter (fun p => p != ws)
    ∧ (∀ p, p ∈ snapshot rs room → p ≠ ws → ok p = true →
        (p, m) ∈ (broadcastPass rs room ws m ok).delivered)
    ∧ (∀ rest, relayLoop rs room ws ok (m :: rest)
        = (broadcastPass rs room ws m ok).delivered
            ++ relayLoop rs room ws ok rest)
    ∧ (∀ rs0 qr msgs e, (wsEndpoint rs0 qr ws msgs e ok).raised
        = (wsEndpoint rs0 qr ws msgs e (fun _ => true)).raised) := by
  refine ⟨broadcastPass_attempted rs room ws m ok, ?_, fun rest => rfl,
    fun rs0 qr msgs e => rfl⟩
  intro p hp hne hok
  rw [broadcastPass_delivered]
  exact List.mem_map_of_mem _ (by simp [List.mem_filter, hp, hne, hok])

/-- C3: for every termination mode of the relay loop — graceful disconnect
or any other read error — the handler performs the registry leave step
exactly once, and the final registry state, the deliveries and the sequence
of registry operations are identical to those of a graceful disconnect. -/
theorem claim3_leave_once_any_exit (rs0 : Rooms) (qr : Option String)
    (ws : Conn) (msgs : List String) (ok : Conn → Bool) (e : EndEvent) :
    (wsEndpoint rs0 qr ws msgs e ok).regOps.countP RegOp.isLeave = 1
    ∧ (wsEndpoint rs0 qr ws msgs e ok).rooms
        = (wsEndpoint rs0 qr ws msgs EndEvent.disconnect ok).rooms
    ∧ (wsEndpoint rs0 qr ws msgs e ok).delivered
        = (wsEndpoint rs0 qr ws msgs EndEvent.disconnect ok).delivered
    ∧ (wsEndpoint rs0 qr ws msgs e ok).regOps
        = (wsEndpoint rs0 qr ws msgs EndEvent.disconnect ok).regOps := by
  refine ⟨?_, rfl, rfl, rfl⟩
  simp [wsEndpoint, List.countP_cons, RegOp.isLeave]

/-- C4: a connection joined only to room `R1` neither receives nor is
attempted with a message broadcast in a distinct room `R2`: a pass reads
only the sender's own room's member set. -/
theorem claim4_room_isolation (rs : Rooms) (R1 R2 : String)
    (c sender : Conn) (m : String) (ok : Conn → Bool) (hR : R1 ≠ R2)
    (hc1 : c ∈ snapshot rs R1) (hc2 : c ∉ snapshot rs R2) :
    c ∉ (broadcastPass rs R2 sender m ok).attempted
    ∧ ∀ m', (c, m') ∉ (broadcastPass rs R2 sender m ok).delivered := by
  constructor
  · rw [broadcastPass_attempted]
    intro hmem
    exact hc2 (List.mem_of_mem_filter hmem)
  · intro m' hmem
    rw [broadcastPass_delivered] at hmem
    simp only [List.mem_map, List.mem_filter, Prod.mk.injEq] at hmem
    obtain ⟨p, ⟨hp, _⟩, hpc, _⟩ := hmem
    exact hc2 (hpc ▸ hp)

/-- C5: for a room identifier not present in the registry, the snapshot is
empty and a broadcast pass over it attempts and delivers nothing — the pass
is a total function, so no error is raised. -/
theorem claim5_unknown_room (rs : Rooms) (room : String) (ws : Conn)
    (m : String) (ok : Conn → Bool) (h : dictLookup rs room = none) :
    snapshot rs room = []
    ∧ broadcastPass rs room ws m ok = ⟨[], []⟩ := by
  have hs : snapshot rs room = [] := by simp [snapshot, h]
  refine ⟨hs, ?_⟩
  unfold broadcastPass
  rw [hs]
  rfl

/-- C6: `leave` removes the connection from the room's member set when
present; it is a no-op — not an error — when the room is absent or the
connection is not in the room; and leaving twice for the same pair leaves
the registry exactly as leaving once does. -/
theorem claim6_leave_noop_and_idempotent (rs : Rooms) (room : String)
    (ws : Conn) (hwf : WF rs) :
    (dictLookup rs room = none → leave rs room ws = rs)
    ∧ (∀ s, dictLookup rs room = some s → ws ∉ s → leave rs room ws = rs)
    ∧ (∀ c, c ∈ snapshot (leave rs room ws) room
        ↔ c ∈ snapshot rs room ∧ c ≠ ws)
    ∧ leave (leave rs room ws) room ws = leave rs room ws := by
  refine ⟨?_, ?_, ?_, ?_⟩
  · intro h
    simp [leave, h]
  · intro s hs hm
    simp [leave, hs, hm]
  · intro c
    rw [snapshot_leave_self]
    rw [(nodup_snapshot hwf room).mem_erase_iff]
    tauto
  · cases hl : dictLookup rs room with
    | none =>
        have heq : leave rs room ws = rs := by simp [leave, hl]
        rw [heq]
        exact heq
    | some s =>
        by_cases hw : ws ∈ s
        · have hs : s.Nodup := hwf.2 (room, s) (mem_of_dictLookup hl)
          have heq : leave rs room ws = dictSet rs room (s.erase ws) := by
            simp [leave, hl, hw]
          rw [heq]
          have h2 : dictLookup (dictSet rs room (s.erase ws)) room
              = some (s.erase ws) := dictLookup_dictSet_self rs room _
          have hnm : ws ∉ s.erase ws := fun h =>
            ((hs.mem_erase_iff).mp h).1 rfl
          simp [leave, h2, hnm]
        · have heq : leave rs room ws = rs := by simp [leave, hl, hw]
          rw [heq]
          exact heq

/-- C7, counterexample to the claim as stated: for the reachable registry in
which connection `0` is already a member of room `"r"`, a further `join`
followed by `leave` empties the member set instead of restoring it — the
claim fails without the proviso that the connection was not yet a member. -/
theorem claim7_counterexample :
    snapshot (leave (join (join ([] : Rooms) "r" 0) "r" 0) "r" 0) "r"
      ≠ snapshot (join ([] : Rooms) "r" 0) "r" := by
  decide

/-- C7, amended: for every registry state in which the connection is *not*
already a member of the room, `join` immediately followed by `leave` leaves
that room's member set (as read by `snapshot`) exactly as it was before the
join; in particular an empty member set stays empty. -/
theorem claim7_join_then_leave_restores (rs : Rooms) (room : String)
    (ws : Conn) (h : ws ∉ snapshot rs room) :
    snapshot (leave (join rs room ws) room ws) room = snapshot rs room := by
  rw [snapshot_leave_self, snapshot_join_self]
  unfold setAdd
  rw [if_neg h, List.erase_append_right _ h]
  simp

/-- C8: a message received by a connection whose room has zero other members
triggers a no-op broadcast pass: no send is attempted, nothing is delivered,
no error is raised (the pass is total), and the message is not buffered —
the rest of the relay loop proceeds as if it had never been received. -/
theorem claim8_empty_room_drop (rs : Rooms) (room : String) (ws : Conn)
    (m : String) (ok : Conn → Bool)
    (h : ∀ p ∈ snapshot rs room, p = ws) :
    (broadcastPass rs room ws m ok).attempted = []
    ∧ (broadcastPass rs room ws m ok).delivered = []
    ∧ ∀ rest, relayLoop rs room ws ok (m :: rest)
        = relayLoop rs room ws ok rest := by
  have hd : (broadcastPass rs room ws m ok).delivered = [] := by
    rw [broadcastPass_delivered]
    have : (snapshot rs room).filter (fun p => p != ws && ok p) = [] := by
      rw [List.filter_eq_nil_iff]
      intro p hp
      simp [h p hp]
    rw [this]
    rfl
  refine ⟨?_, hd, ?_⟩
  · rw [broadcastPass_attempted, List.filter_eq_nil_iff]
    intro p hp
    simp [h p hp]
  · intro rest
    show (broadcastPass rs room ws m ok).delivered
        ++ relayLoop rs room ws ok rest = relayLoop rs room ws ok rest
    rw [hd]
    rfl

/-- C9: a connection whose setup carries no room identifier resolves to the
fixed room `"default"`; two connections `x`, `y` that both omit the
parameter end up in the same room, and a message `x` sends is delivered to
`y`. -/
theorem claim9_default_room (rs : Rooms) (x y : Conn) (m : String)
    (ok : Conn → Bool) (hxy : x ≠ y) (hok : ok y = true) :
    roomOf none = "default"
    ∧ x ∈ snapshot (join (join rs (roomOf none) x) (roomOf none) y) "default"
    ∧ y ∈ snapshot (join (join rs (roomOf none) x) (roomOf none) y) "default"
    ∧ (y, m) ∈ (broadcastPass (join (join rs (roomOf none) x) (roomOf none) y)
        "default" x m ok).delivered := by
  have hdef : roomOf none = "default" := rfl
  have hy : y ∈ snapshot (join (join rs (roomOf none) x) (roomOf none) y)
      "default" := by
    rw [hdef, snapshot_join_self, mem_setAdd]
    exact Or.inr rfl
  refine ⟨hdef, ?_, hy, ?_⟩
  · rw [hdef, snapshot_join_self, mem_setAdd, snapshot_join_self, mem_setAdd]
    exact Or.inl (Or.inr rfl)
  · rw [broadcastPass_delivered]
    refine List.mem_map_of_mem _ ?_
    rw [List.mem_filter]
    refine ⟨hy, ?_⟩
    simp [Ne.symm hxy, hok]

/-- C10: the leave cleanup never deletes a room key: every key present
before a `leave` is present after it (and vice versa), rooms other than the
one left are untouched, and when the last member leaves, the registry
retains the room name mapped to the empty set. -/
theorem claim10_room_key_retained (rs : Rooms) (room : String) (ws : Conn) :
    (∀ r, (dictLookup (leave rs room ws) r).isSome
        = (dictLookup rs r).isSome)
    ∧ (∀ r, r ≠ room → dictLookup (leave rs room ws) r = dictLookup rs r)
    ∧ (dictLookup rs room = some [ws] →
        dictLookup (leave rs room ws) room = some []) := by
  refine ⟨?_, ?_, ?_⟩
  · intro r
    by_cases hr : r = room
    · subst hr
      cases hl : dictLookup rs r with
      | none => simp [leave, hl]
      | some s =>
          by_cases hw : ws ∈ s
          · simp [leave, hl, hw, dictLookup_dictSet_self]
          · simp [leave, hl, hw]
    · rw [dictLookup_leave_ne _ _ _ _ hr]
  · intro r hr
    exact dictLookup_leave_ne _ _ _ _ hr
  · intro h
    simp [leave, h, dictLookup_dictSet_self]

/-! ### Witnesses: concrete instantiations of the claims -/

/-- Witness for C1 at the registry `[("r", [0, 1])]`, sender `0`, peer `1`. -/
theorem claim1_witness :
    WF [("r", [0, 1])]
    ∧ (1 : Conn) ∈ snapshot [("r", [0, 1])] "r"
    ∧ (1 : Conn) ≠ 0
    ∧ (fun _ : Conn => true) 1 = true
    ∧ (((broadcastPass [("r", [0, 1])] "r" 0 "hello"
          (fun _ => true)).delivered.map Prod.fst).count 1 = 1
        ∧ (0 : Conn) ∉ (broadcastPass [("r", [0, 1])] "r" 0 "hello"
            (fun _ => true)).delivered.map Prod.fst
        ∧ (0 : Conn) ∉ (broadcastPass [("r", [0, 1])] "r" 0 "hello"
            (fun _ => true)).attempted) :=
  ⟨⟨by decide, by decide⟩, by decide, by decide, rfl,
    claim1_broadcast_once_never_self [("r", [0, 1])] "r" 0 1 "hello"
      (fun _ => true) ⟨by decide, by decide⟩ (by decide) (by decide) rfl⟩

/-- Witness for C2 at the registry `[("r", [0, 1, 2])]`, sender `0`, with
peer `2`'s transport failing. -/
theorem claim2_witness :
    (fun c : Conn => c != 2) 2 = false
    ∧ ((broadcastPass [("r", [0, 1, 2])] "r" 0 "x" (fun c => c != 2)).attempted
          = (snapshot [("r", [0, 1, 2])] "r").filter (fun p => p != 0)
        ∧ (∀ p, p ∈ snapshot [("r", [0, 1, 2])] "r" → p ≠ 0 →
            (fun c : Conn => c != 2) p = true →
            (p, "x") ∈ (broadcastPass [("r", [0, 1, 2])] "r" 0 "x"
              (fun c => c != 2)).delivered)
        ∧ (∀ rest, relayLoop [("r", [0, 1, 2])] "r" 0 (fun c => c != 2)
              ("x" :: rest)
            = (broadcastPass [("r", [0, 1, 2])] "r" 0 "x"
                (fun c => c != 2)).delivered
              ++ relayLoop [("r", [0, 1, 2])] "r" 0 (fun c => c != 2) rest)
        ∧ (∀ rs0 qr msgs e, (wsEndpoint rs0 qr 0 msgs e
              (fun c => c != 2)).raised
            = (wsEndpoint rs0 qr 0 msgs e (fun _ => true)).raised)) :=
  ⟨rfl, claim2_send_failure_swallowed [("r", [0, 1, 2])] "r" 0 "x"
    (fun c => c != 2) 2 rfl⟩

/-- Witness for C4: rooms `"a"` and `"b"`, connection `0` only in `"a"`,
sender `1` broadcasting in `"b"`. -/
theorem claim4_witness :
    ("a" : String) ≠ "b"
    ∧ (0 : Conn) ∈ snapshot [("a", [0]), ("b", [1])] "a"
    ∧ (0 : Conn) ∉ snapshot [("a", [0]), ("b", [1])] "b"
    ∧ ((0 : Conn) ∉ (broadcastPass [("a", [0]), ("b", [1])] "b" 1 "x"
          (fun _ => true)).attempted
        ∧ ∀ m', ((0 : Conn), m') ∉ (broadcastPass [("a", [0]), ("b", [1])]
            "b" 1 "x" (fun _ => true)).delivered) :=
  ⟨by decide, by decide, by decide,
    claim4_room_isolation [("a", [0]), ("b", [1])] "a" "b" 0 1 "x"
      (fun _ => true) (by decide) (by decide) (by decide)⟩

/-- Witness for C5: the room `"b"` is unknown to the registry
`[("a", [0])]`. -/
theorem claim5_witness :
    dictLookup [("a", [0])] "b" = none
    ∧ (snapshot [("a", [0])] "b" = []
        ∧ broadcastPass [("a", [0])] "b" 7 "x" (fun _ => true) = ⟨[], []⟩) :=
  ⟨by decide, claim5_unknown_room [("a", [0])] "b" 7 "x" (fun _ => true)
    (by decide)⟩

/-- Witness for C6 at the registry `[("r", [0, 1])]`, pair `("r", 0)`. -/
theorem claim6_witness :
    WF [("r", [0, 1])]
    ∧ ((dictLookup [("r", [0, 1])] "r" = none →
          leave [("r", [0, 1])] "r" 0 = [("r", [0, 1])])
        ∧ (∀ s, dictLookup [("r", [0, 1])] "r" = some s → 0 ∉ s →
            leave [("r", [0, 1])] "r" 0 = [("r", [0, 1])])
        ∧ (∀ c, c ∈ snapshot (leave [("r", [0, 1])] "r" 0) "r"
            ↔ c ∈ snapshot [("r", [0, 1])] "r" ∧ c ≠ 0)
        ∧ leave (leave [("r", [0, 1])] "r" 0) "r" 0
            = leave [("r", [0, 1])] "r" 0) :=
  ⟨⟨by decide, by decide⟩,
    claim6_leave_noop_and_idempotent [("r", [0, 1])] "r" 0
      ⟨by decide, by decide⟩⟩

/-- Witness for the amended C7: connection `0` is not a member of `"r"` in
`[("r", [1])]`; join then leave restores the member set. -/
theorem claim7_witness :
    (0 : Conn) ∉ snapshot [("r", [1])] "r"
    ∧ snapshot (leave (join [("r", [1])] "r" 0) "r" 0) "r"
        = snapshot [("r", [1])] "r" :=
  ⟨by decide, claim7_join_then_leave_restores [("r", [1])] "r" 0 (by decide)⟩

/-- Witness for C8: connection `0` is alone in `"r"`; its message is
dropped by a no-op pass. -/
theorem claim8_witness :
    (∀ p ∈ snapshot [("r", [0])] "r", p = 0)
    ∧ ((broadcastPass [("r", [0])] "r" 0 "x" (fun _ => true)).attempted = []
        ∧ (broadcastPass [("r", [0])] "r" 0 "x" (fun _ => true)).delivered = []
        ∧ ∀ rest, relayLoop [("r", [0])] "r" 0 (fun _ => true) ("x" :: rest)
            = relayLoop [("r", [0])] "r" 0 (fun _ => true) rest) :=
  ⟨by decide, claim8_empty_room_drop [("r", [0])] "r" 0 "x" (fun _ => true)
    (by decide)⟩

/-- Witness for C9: connections `0` and `1` both omit the room parameter,
starting from the empty registry. -/
theorem claim9_witness :
    (0 : Conn) ≠ 1
    ∧ (fun _ : Conn => true) 1 = true
    ∧ (roomOf none = "default"
        ∧ (0 : Conn) ∈ snapshot (join (join ([] : Rooms) (roomOf none) 0)
            (roomOf none) 1) "default"
        ∧ (1 : Conn) ∈ snapshot (join (join ([] : Rooms) (roomOf none) 0)
            (roomOf none) 1) "default"
        ∧ ((1 : Conn), "hi") ∈ (broadcastPass (join (join ([] : Rooms)
            (roomOf none) 0) (roomOf none) 1) "default" 0 "hi"
            (fun _ => true)).delivered) :=
  ⟨by decide, rfl, claim9_default_room [] 0 1 "hi" (fun _ => true)
    (by decide) rfl⟩

/-- Witness for C10 at the registry `[("r", [5])]`: after the last member
leaves, the key `"r"` survives, mapped to the empty set. -/
theorem claim10_witness :
    (dictLookup (leave [("r", [5])] "r" 5) "r").isSome
        = (dictLookup [("r", [5])] "r").isSome
    ∧ dictLookup (leave [("r", [5])] "r" 5) "q" = dictLookup [("r", [5])] "q"
    ∧ dictLookup (leave [("r", [5])] "r" 5) "r" = some [] :=
  ⟨(claim10_room_key_retained [("r", [5])] "r" 5).1 "r",
    (claim10_room_key_retained [("r", [5])] "r" 5).2.1 "q" (by decide),
    (claim10_room_key_retained [("r", [5])] "r" 5).2.2 (by decide)⟩
